import Mathlib

/-!
Verification of the ClauseFlow extraction core against its specification.

The Python source is shallowly embedded: text is a `List Char`, Python `int`
is `Int`, `None`-able strings are `Option String`, raising functions return
`Except`, and warning messages (Python f-strings) are modelled as an
inductive type whose constructors carry exactly the data interpolated into
the corresponding source message. Python's stable `sorted`/`list.sort` is
modelled by the stable `List.insertionSort`.
-/

namespace ClauseFlow

/-! ## Line Indexer (src/backend/services/preprocessor.py) -/

/-- `text.split('\n')` on `List Char`: splitting the empty text yields one
empty line, exactly like Python's `str.split`. -/
def splitNL : List Char → List (List Char)
  | [] => [[]]
  | c :: rest =>
    if c = '\n' then [] :: splitNL rest
    else
      match splitNL rest with
      | [] => [[c]]
      | l :: ls => (c :: l) :: ls

/-- `'\n'.join(lines)` on `List Char`. -/
def joinNL : List (List Char) → List Char
  | [] => []
  | [l] => l
  | l :: ls => l ++ '\n' :: joinNL ls

/-- Zero padding used by the Python format spec `{i:0{width}d}`. -/
def zeroPad (w : Nat) (cs : List Char) : List Char :=
  List.replicate (w - cs.length) '0' ++ cs

/-- The `[NNN] line` rendering loop of `add_line_numbers` (`enumerate(lines, start=1)`). -/
def numberLines (w : Nat) : Nat → List (List Char) → List (List Char)
  | _, [] => []
  | i, l :: ls =>
      (('[' :: zeroPad w (Nat.toDigits 10 i)) ++ (']' :: ' ' :: l)) :: numberLines w (i + 1) ls

/-- `NumberedDocument` from preprocessor.py. -/
structure NumberedDocument where
  numbered_text : List Char
  original_lines : List (List Char)
  total_lines : Int
  deriving DecidableEq

/-- `add_line_numbers(text)` from preprocessor.py. -/
def addLineNumbers (text : List Char) : NumberedDocument :=
  let lines := splitNL text
  let totalLines := lines.length
  let width := (Nat.toDigits 10 totalLines).length
  { numbered_text := joinNL (numberLines width 1 lines)
    original_lines := lines
    total_lines := (totalLines : Int) }

/-- `extract_lines(doc, start_line, end_line)` from preprocessor.py.
Raising `ValueError` is modelled as `Except.error`; the Python slice
`original_lines[start_idx:end_idx]` (with `0 ≤ start_idx < end_idx`) is
`(drop start_idx).take (end_idx - start_idx)`. -/
def extractLines (doc : NumberedDocument) (startLine endLine : Int) :
    Except String (List Char) :=
  let startIdx := startLine - 1
  let endIdx := endLine
  if startIdx < 0 ∨ endIdx > doc.total_lines ∨ startIdx ≥ endIdx then
    .error ("Invalid line range: " ++ toString startLine ++ "-" ++ toString endLine ++
      " (document has " ++ toString doc.total_lines ++ " lines)")
  else
    .ok (joinNL ((doc.original_lines.drop startIdx.toNat).take (endIdx - startIdx).toNat))

/-! ## Segmentation Engine (src/backend/services/segmenter.py) -/

/-- Internal `SectionReference` model (models/segmentation.py). -/
structure SectionReference where
  start_line : Int
  end_line : Int
  section_type : String
  section_title : Option String := none
  section_number : Option String := none
  line_item_number : Option Int := none
  deriving DecidableEq

/-- The warnings appended by `validate_segmentation`, one constructor per
f-string in the source; each constructor carries exactly the numeric data
interpolated into the corresponding message. -/
inductive SegWarning where
  /-- "No sections found" -/
  | noSections : SegWarning
  /-- "Fixed: extended first section to start at line 1 (was {orig})" -/
  | fixedFirstStart (origStart : Int) : SegWarning
  /-- "First section starts at line {start}, expected line 1" -/
  | firstStartBad (start : Int) : SegWarning
  /-- "Fixed: extended section ... end_line from {old} to {new} to fill {gap}-line gap" -/
  | gapFilled (oldEnd newEnd gap : Int) : SegWarning
  /-- "Gap of {gap} lines between ... (ends line {curEnd}) and ... (starts line {nxtStart})" -/
  | gapBig (gap curEnd nxtStart : Int) : SegWarning
  /-- "Fixed: shrunk section ... end_line from {old} to {new} to remove {overlap}-line overlap" -/
  | overlapShrunk (oldEnd newEnd overlap : Int) : SegWarning
  /-- "Fixed: extended last section to end at line {total} (was {old})" -/
  | lastExtended (oldEnd total : Int) : SegWarning
  /-- "Last section ends at line {lastEnd}, document has {total} lines" -/
  | lastShort (lastEnd total : Int) : SegWarning
  /-- "Lines not covered by any section: {sorted(missing)[:20]}{'...' if > 20}" -/
  | uncovered (shown : List Int) (truncated : Bool) : SegWarning
  deriving DecidableEq

/-- `sorted(sections, key=lambda s: s.start_line)` — Python's sort is stable,
as is `List.insertionSort`. -/
def sortSections (sections : List SectionReference) : List SectionReference :=
  sections.insertionSort (fun a b => a.start_line ≤ b.start_line)

/-- The "ensure first section starts at line 1" step of `validate_segmentation`.
The source's message prints `sections[0].start_line + gap` AFTER the update,
which equals the original start line. -/
def firstFix : List SectionReference → List SectionReference × List SegWarning
  | [] => ([], [])
  | s :: rest =>
    if s.start_line ≠ 1 then
      let gap := s.start_line - 1
      if gap ≤ 5 then
        ({ s with start_line := 1 } :: rest, [.fixedFirstStart s.start_line])
      else
        (s :: rest, [.firstStartBad s.start_line])
    else
      (s :: rest, [])

/-- One iteration of the gap/overlap loop body for the adjacent pair
`(current, next_sec)`: it only ever rewrites `current`'s `end_line`
(`next_sec` is untouched), and the `overlap` branch reads the pre-update
`current` (gap > 0 and overlap > 0 are mutually exclusive since
`overlap = -gap`). -/
def pairFix (cur nxt : SectionReference) : SectionReference × List SegWarning :=
  let gap := nxt.start_line - cur.end_line - 1
  let overlap := cur.end_line - nxt.start_line + 1
  let step1 : SectionReference × List SegWarning :=
    if 0 < gap ∧ gap ≤ 3 then
      ({ cur with end_line := nxt.start_line - 1 },
        [.gapFilled cur.end_line (nxt.start_line - 1) gap])
    else if 3 < gap then
      (cur, [.gapBig gap cur.end_line nxt.start_line])
    else
      (cur, [])
  if 0 < overlap then
    ({ step1.1 with end_line := nxt.start_line - 1 },
      step1.2 ++ [.overlapShrunk cur.end_line (nxt.start_line - 1) overlap])
  else
    step1

/-- The `for i in range(len(sections) - 1)` loop of `validate_segmentation`:
index `i` is rewritten from the pair `(sections[i], sections[i+1])`; index
`i+1` is read unmodified (the loop body never writes `sections[i+1]`). -/
def fixAdjacent : List SectionReference → List SectionReference × List SegWarning
  | [] => ([], [])
  | [s] => ([s], [])
  | s :: t :: rest =>
    let p := pairFix s t
    let r := fixAdjacent (t :: rest)
    (p.1 :: r.1, p.2 ++ r.2)

/-- The "ensure last section ends at total_lines" step: note the source warns
only when `diff > 0`; a last section overshooting `total_lines` by more than
5 lines is left unchanged with no warning. -/
def lastFix (total : Int) : List SectionReference → List SectionReference × List SegWarning
  | [] => ([], [])
  | [s] =>
    if s.end_line ≠ total then
      let diff := total - s.end_line
      if diff.natAbs ≤ 5 then
        ([{ s with end_line := total }], [.lastExtended s.end_line total])
      else if 0 < diff then
        ([s], [.lastShort s.end_line total])
      else
        ([s], [])
    else
      ([s], [])
  | s :: t :: rest =>
    let r := lastFix total (t :: rest)
    (s :: r.1, r.2)

/-- The value the last sorted section takes in the `lastFix` step (end
pinned to `total_lines` when within 5 lines of it, otherwise unchanged). -/
def lastAdjust (total : Int) (s : SectionReference) : SectionReference :=
  if s.end_line ≠ total then
    (if (total - s.end_line).natAbs ≤ 5 then { s with end_line := total } else s)
  else s

/-- Does some section of `l` cover `line`? (the `covered` set of the source). -/
def coveredBy (l : List SectionReference) (line : Int) : Bool :=
  l.any (fun s => s.start_line ≤ line ∧ line ≤ s.end_line)

/-- `sorted(expected - covered)`: the lines of `1..total_lines` not covered by
any section, in ascending order. -/
def missingLines (l : List SectionReference) (total : Int) : List Int :=
  ((List.range total.toNat).map (fun k : Nat => (k : Int) + 1)).filter
    (fun line => ¬ coveredBy l line)

/-- The coverage check of `validate_segmentation`: warn with
`sorted(missing)[:20]` plus a `...` marker when more than 20 lines miss. -/
def coverageWarn (l : List SectionReference) (total : Int) : List SegWarning :=
  let missing := missingLines l total
  if missing = [] then []
  else [.uncovered (missing.take 20) (decide (20 < missing.length))]

/-- The ascending list of integers `lo, lo+1, ..., hi` (empty when `hi < lo`). -/
def intRange (lo hi : Int) : List Int :=
  (List.range (hi + 1 - lo).toNat).map (fun k : Nat => (k : Int) + lo)

/-- Formalisation of the claim's phrase "a warning that identifies exactly the
uncovered or conflicting lines": a warning identifies exactly the problem set
`lines` iff its interpolated payload pins that set down precisely. The
discrepancy warnings describe closed intervals (`gapBig` the lines strictly
between the two boundaries, `firstStartBad` the lines before the first
boundary, `lastShort` the lines after the last boundary); the coverage warning
lists the lines themselves, but only when untruncated does it list all of
them. Repair warnings report a completed repair and identify no outstanding
problem lines. -/
def warningIdentifiesExactly : SegWarning → List Int → Bool
  | .firstStartBad s, lines => decide (lines = intRange 1 (s - 1))
  | .gapBig _ curEnd nxtStart, lines => decide (lines = intRange (curEnd + 1) (nxtStart - 1))
  | .lastShort lastEnd total, lines => decide (lines = intRange (lastEnd + 1) total)
  | .uncovered shown truncated, lines => !truncated && decide (lines = shown)
  | _, _ => false

/-- `validate_segmentation(sections, total_lines)` from segmenter.py. -/
def validateSegmentation (sections : List SectionReference) (total : Int) :
    List SectionReference × List SegWarning :=
  if sections = [] then (sections, [.noSections])
  else
    let sorted := sortSections sections
    let r1 := firstFix sorted
    let r2 := fixAdjacent r1.1
    let r3 := lastFix total r2.1
    (r3.1, r1.2 ++ r2.2 ++ r3.2 ++ coverageWarn r3.1 total)

/-! ## Chunked Extraction Engine (src/backend/services/clause_extractor.py) -/

/-- `ChunkType` from models/clause.py. -/
inductive ChunkType where
  | clause
  | administrative
  | boilerplate
  | header
  | signature
  deriving DecidableEq

/-- `ClauseReference` from models/clause.py. -/
structure ClauseReference where
  start_line : Int
  end_line : Int
  clause_number : Option String := none
  clause_title : Option String := none
  chunk_type : ChunkType
  deriving DecidableEq

/-- The warnings of `validate_references`, one constructor per f-string, each
carrying exactly the interpolated data (`clause_number or 'unnamed'`, line
numbers, and for invalid references which of the three issues fired). -/
inductive CWarning where
  /-- "Clause {n} at lines {s}-{e}: {issues}" -/
  | invalidRef (clauseNumber : Option String) (startLine endLine : Int)
      (badStart badEnd badOrder : Bool) : CWarning
  /-- "Overlap: {cn} (lines {cs}-{ce}) overlaps with {nn} (lines {ns}-{ne})" -/
  | overlapRef (curNumber : Option String) (curStart curEnd : Int)
      (nxtNumber : Option String) (nxtStart nxtEnd : Int) : CWarning
  /-- "Gap of {gap} lines between {cn} (ends line {ce}) and {nn} (starts line {ns})" -/
  | gapRef (gap : Int) (curNumber : Option String) (curEnd : Int)
      (nxtNumber : Option String) (nxtStart : Int) : CWarning
  deriving DecidableEq

/-- `sorted(refs, key=lambda r: r.start_line)` (stable). -/
def sortClauses (refs : List ClauseReference) : List ClauseReference :=
  refs.insertionSort (fun a b => a.start_line ≤ b.start_line)

/-- The per-reference issue loop of `validate_references`: a warning for every
reference with at least one issue, in input order. -/
def invalidWarnings (total : Int) (refs : List ClauseReference) : List CWarning :=
  refs.filterMap (fun r =>
    if r.start_line < 1 ∨ r.end_line > total ∨ r.start_line > r.end_line then
      some (.invalidRef r.clause_number r.start_line r.end_line
        (decide (r.start_line < 1)) (decide (r.end_line > total))
        (decide (r.start_line > r.end_line)))
    else none)

/-- The overlap check of `validate_references` over adjacent sorted pairs
(`current.end_line >= next_ref.start_line`). -/
def overlapWarnings : List ClauseReference → List CWarning
  | [] => []
  | [_] => []
  | a :: b :: rest =>
    (if a.end_line ≥ b.start_line then
      [.overlapRef a.clause_number a.start_line a.end_line
        b.clause_number b.start_line b.end_line]
    else []) ++ overlapWarnings (b :: rest)

/-- The large-gap check of `validate_references` over adjacent sorted pairs
(`gap = next.start_line - current.end_line`, warn when `gap > 10`). -/
def gapWarnings : List ClauseReference → List CWarning
  | [] => []
  | [_] => []
  | a :: b :: rest =>
    (if b.start_line - a.end_line > 10 then
      [.gapRef (b.start_line - a.end_line) a.clause_number a.end_line
        b.clause_number b.start_line]
    else []) ++ gapWarnings (b :: rest)

/-- `validate_references(refs, total_lines)` from clause_extractor.py. -/
def validateReferences (refs : List ClauseReference) (total : Int) :
    List ClauseReference × List CWarning :=
  let valid := refs.filter
    (fun r => ¬(r.start_line < 1 ∨ r.end_line > total ∨ r.start_line > r.end_line))
  let sorted := sortClauses valid
  (valid, invalidWarnings total refs ++ overlapWarnings sorted ++ gapWarnings sorted)

/-- `MAX_LINES_PER_CHUNK = int(MAX_CONTEXT_TOKENS / TOKENS_PER_LINE)
= int(100000 / 15) = 6666`. -/
def MAX_LINES_PER_CHUNK : Int := 100000 / 15

/-- `chunk_overlap = 50` from `extract_clauses_from_document`. -/
def chunkOverlap : Int := 50

/-- The `start_line + line_offset` / `end_line + line_offset` conversion of
`_extract_chunk`. -/
def shiftClause (off : Int) (c : ClauseReference) : ClauseReference :=
  { c with start_line := c.start_line + off, end_line := c.end_line + off }

/-- The overlap filter of the chunk loop: keep a clause iff
`c.start_line >= overlap_end or c.end_line <= overlap_start`, with
`overlap_start = chunk_start` and `overlap_end = chunk_start + chunk_overlap`. -/
def chunkKeep (chunkStart : Int) (c : ClauseReference) : Bool :=
  decide (c.start_line ≥ chunkStart + chunkOverlap) || decide (c.end_line ≤ chunkStart)

/-- The `while chunk_start < doc.total_lines` loop of
`extract_clauses_from_document`. The oracle stands for `_extract_chunk`'s
parsed output on the window `(chunk_start, chunk_end)` (0-based half-open,
clause lines 1-based within the window); `fuel` only bounds iteration count
and is chosen large enough at the call site. -/
def chunkLoopGo (oracle : Int → Int → List ClauseReference) (total : Int) :
    Nat → Int → List ClauseReference → List ClauseReference
  | 0, _, acc => acc
  | fuel + 1, chunkStart, acc =>
    if chunkStart < total then
      let chunkEnd := min (chunkStart + MAX_LINES_PER_CHUNK) total
      let raw := (oracle chunkStart chunkEnd).map (shiftClause chunkStart)
      let kept := if acc ≠ [] ∧ 0 < chunkStart then raw.filter (chunkKeep chunkStart) else raw
      let acc2 := acc ++ kept
      let nextStart := chunkEnd - chunkOverlap
      if total - chunkOverlap ≤ nextStart then acc2
      else chunkLoopGo oracle total fuel nextStart acc2
    else acc

/-- `extract_clauses_from_document(doc)` from clause_extractor.py, with the
oracle call abstracted: a document within the per-call capacity is extracted
in one call; larger documents run the overlapping-window loop and the result
is sorted by start line (Python's stable `list.sort`; no separate dedup). -/
def extractClausesFromDocument (oracle : Int → Int → List ClauseReference) (total : Int) :
    List ClauseReference :=
  if total ≤ MAX_LINES_PER_CHUNK then (oracle 0 total).map (shiftClause 0)
  else sortClauses (chunkLoopGo oracle total (total.toNat + 1) 0 [])

/-- Claim-side decomposition of the chunk loop, step 1: the list of windows
`(chunk_start, chunk_end)` the loop visits. -/
def windowsGo (total : Int) : Nat → Int → List (Int × Int)
  | 0, _ => []
  | fuel + 1, chunkStart =>
    if chunkStart < total then
      let chunkEnd := min (chunkStart + MAX_LINES_PER_CHUNK) total
      let nextStart := chunkEnd - chunkOverlap
      if total - chunkOverlap ≤ nextStart then [(chunkStart, chunkEnd)]
      else (chunkStart, chunkEnd) :: windowsGo total fuel nextStart
    else []

/-- Claim-side decomposition, step 2: the per-window retained boundary lists.
A window after the first is overlap-filtered only when some earlier window
already retained a boundary (`anyKept`), mirroring the source's
`if all_clauses and chunk_start > 0` guard. -/
def stitchKept (oracle : Int → Int → List ClauseReference) :
    List (Int × Int) → Bool → List (List ClauseReference)
  | [], _ => []
  | (s, e) :: rest, anyKept =>
    let raw := (oracle s e).map (shiftClause s)
    let kept := if anyKept ∧ 0 < s then raw.filter (chunkKeep s) else raw
    kept :: stitchKept oracle rest (anyKept || decide (kept ≠ []))

/-- Oracle for the C5 counterexample: the first window finds no clauses, the
second window reports a clause at window-relative lines 5..10. -/
def c5CounterOracle : Int → Int → List ClauseReference :=
  fun s _ =>
    if s = 0 then []
    else [{ start_line := 5, end_line := 10, chunk_type := .clause }]

/-! ## Reference Reconciliation Engine (src/backend/services/reference_matcher.py) -/

/-- `MatchStatus` from models/db_models.py (`PARTIAL` is rendered here as
`partialMatch`). -/
inductive MatchStatus where
  | matched
  | partialMatch
  | unresolved
  deriving DecidableEq

/-- The fields of `ReferenceDocument` used by matching (`db_models.py`:
`doc_identifier` and `version` are nullable columns). -/
structure RefDoc where
  id : Int
  customer_id : Int
  doc_identifier : Option String := none
  version : Option String := none
  deriving DecidableEq

/-- The fields of a stored `Clause` used by matching. -/
structure ClauseRec where
  id : Int
  start_line : Int
  end_line : Int
  deriving DecidableEq

/-- One detected citation (the dict produced by `detect_references_in_clauses`). -/
structure DetectedReference where
  clause_start_line : Int
  clause_end_line : Int
  spec_identifier : String
  version : Option String := none
  context : Option String := none
  deriving DecidableEq

/-- `ClauseReferenceLink` as constructed by `match_references_to_library`. -/
structure ClauseReferenceLink where
  clause_id : Int
  reference_document_id : Option Int := none
  detected_spec_identifier : String
  detected_version : Option String := none
  match_status : MatchStatus
  deriving DecidableEq

/-- Python truthiness of an optional string (`None` and `""` are falsy). -/
def optTruthy : Option String → Bool
  | none => false
  | some s => !s.isEmpty

/-- Python `str.isspace` membership for the ASCII whitespace characters
relevant to `str.strip()`. -/
def pyIsSpace (c : Char) : Bool :=
  c = ' ' || c = '\t' || c = '\n' || c = '\r' || c = '\x0b' || c = '\x0c'

/-- Python `str.strip()` (default whitespace, both ends). -/
def pyStrip (cs : List Char) : List Char :=
  ((cs.dropWhile pyIsSpace).reverse.dropWhile pyIsSpace).reverse

/-- `_normalize_identifier`: `identifier.strip().upper().replace(" ", "")
.replace("-", "").replace("_", "")`; removing the three characters in
sequence equals one filter since uppercasing never produces them. -/
def normalizeIdentifier (s : String) : String :=
  String.mk (((pyStrip s.data).map Char.toUpper).filter
    (fun c => !(c = ' ' || c = '-' || c = '_')))

/-- `_normalize_version`: `version.strip().lower().replace(" ", "")`. -/
def normalizeVersion (s : String) : String :=
  String.mk (((pyStrip s.data).map Char.toLower).filter (fun c => !(c = ' ')))

/-- Claim-side predicate: the library entry has an identifier sharing the
citation's normalized identifier. -/
def sharesIdentifier (citationIdentifier : String) (rd : RefDoc) : Bool :=
  match rd.doc_identifier with
  | none => false
  | some idStr => decide (normalizeIdentifier idStr = normalizeIdentifier citationIdentifier)

/-- Claim-side predicate: the library entry carries a version whose
normalization equals the citation's normalized version. -/
def versionMatches (citationVersion : String) (rd : RefDoc) : Bool :=
  match rd.version with
  | none => false
  | some v => decide (normalizeVersion v = normalizeVersion citationVersion)

/-- The clause lookup of `match_references_to_library`: the
`clause_by_lines` dict (last insertion wins, hence the reversed search),
then the fuzzy fallback on `start_line` alone (first match in order). -/
def lookupClause (clauses : List ClauseRec) (s e : Int) : Option ClauseRec :=
  match (clauses.reverse).find?
      (fun c => decide (c.start_line = s) && decide (c.end_line = e)) with
  | some c => some c
  | none => clauses.find? (fun c => decide (c.start_line = s))

/-- `ref_doc_lookup.get(norm_id, [])`: the customer's reference docs with a
truthy `doc_identifier` normalizing to `key`, in load order (the
`setdefault(...).append` loop preserves it). -/
def refDocsSharing (docs : List RefDoc) (key : String) : List RefDoc :=
  docs.filter (fun rd =>
    optTruthy rd.doc_identifier &&
      decide (normalizeIdentifier (rd.doc_identifier.getD "") = key))

/-- The `for rd in matching_docs` version-resolution loop: returns
`(exact_match, partial_match)`; `break` on an exact match, `partial_match`
overwritten as the loop advances. -/
def scanVersions (detVersion : Option String) :
    List RefDoc → Option RefDoc → Option RefDoc × Option RefDoc
  | [], pm => (none, pm)
  | rd :: rest, pm =>
    if optTruthy detVersion && optTruthy rd.version then
      if normalizeVersion (rd.version.getD "") = normalizeVersion (detVersion.getD "") then
        (some rd, pm)
      else scanVersions detVersion rest (some rd)
    else if !optTruthy detVersion then
      (some rd, pm)
    else
      scanVersions detVersion rest (some rd)

/-- The per-detection body of `match_references_to_library`: `None` when no
clause matches (the source's `continue`), otherwise the three-tier link. -/
def matchDetected (clauses : List ClauseRec) (docs : List RefDoc)
    (det : DetectedReference) : Option ClauseReferenceLink :=
  match lookupClause clauses det.clause_start_line det.clause_end_line with
  | none => none
  | some clause =>
    let matchingDocs := refDocsSharing docs (normalizeIdentifier det.spec_identifier)
    if matchingDocs = [] then
      some { clause_id := clause.id, detected_spec_identifier := det.spec_identifier,
             detected_version := det.version, match_status := .unresolved }
    else
      match scanVersions det.version matchingDocs none with
      | (some rd, _) =>
          some { clause_id := clause.id, reference_document_id := some rd.id,
                 detected_spec_identifier := det.spec_identifier,
                 detected_version := det.version, match_status := .matched }
      | (none, some rd) =>
          some { clause_id := clause.id, reference_document_id := some rd.id,
                 detected_spec_identifier := det.spec_identifier,
                 detected_version := det.version, match_status := .partialMatch }
      | (none, none) =>
          some { clause_id := clause.id, detected_spec_identifier := det.spec_identifier,
                 detected_version := det.version, match_status := .unresolved }

/-- `match_references_to_library(detected, customer_id, clauses, db)`: the
database query for the customer's reference documents is modelled by the
`customerRefDocs` parameter (its result list, in query order). -/
def matchReferencesToLibrary (detected : List DetectedReference)
    (clauses : List ClauseRec) (customerRefDocs : List RefDoc) :
    List ClauseReferenceLink :=
  detected.filterMap (matchDetected clauses customerRefDocs)

/-! ## Oracle parsed-result handling (C8 call sites) -/

/-- `segment_document`'s handling of `response.choices[0].message.parsed`:
`None` raises (`ValueError`), a parsed result is converted field-by-field. -/
def segHandleParsed : Option (List SectionReference) → Except String (List SectionReference)
  | none => .error "Failed to parse segmentation response — got None"
  | some sections => .ok sections

/-- `_extract_chunk`'s handling of the parsed result: `None` raises, a parsed
result is converted with the line offset applied. -/
def extractChunkHandleParsed (lineOffset : Int) :
    Option (List ClauseReference) → Except String (List ClauseReference)
  | none => .error "Failed to parse response - got None"
  | some clauses => .ok (clauses.map (shiftClause lineOffset))

/-- `detect_references_in_clauses`' handling of the parsed result:
`if not parsed: return []` — a missing parsed result becomes an EMPTY
success, not an error. -/
def detectHandleParsed : Option (List DetectedReference) → Except String (List DetectedReference)
  | none => .ok []
  | some parsed => .ok parsed

/-! ## Lemmas and claim theorems -/

lemma splitNL_ne_nil (t : List Char) : splitNL t ≠ [] := by
  cases t with
  | nil => simp [splitNL]
  | cons c rest =>
      simp only [splitNL]
      split
      · simp
      · cases h : splitNL rest <;> simp

lemma joinNL_splitNL (t : List Char) : joinNL (splitNL t) = t := by
  induction t with
  | nil => rfl
  | cons c rest ih =>
      simp only [splitNL]
      split
      · rename_i hc
        subst hc
        rcases h : splitNL rest with _ | ⟨l, ls⟩
        · exact absurd h (splitNL_ne_nil rest)
        · rw [h] at ih
          simpa [joinNL] using ih
      · rcases h : splitNL rest with _ | ⟨l, ls⟩
        · exact absurd h (splitNL_ne_nil rest)
        · rw [h] at ih
          cases ls with
          | nil => simpa [joinNL] using congrArg (c :: ·) ih
          | cons l2 ls2 =>
              have : joinNL ((c :: l) :: l2 :: ls2) = c :: joinNL (l :: l2 :: ls2) := by
                simp [joinNL]
              rw [this, ih]

lemma joinNL_append (a b : List (List Char)) (ha : a ≠ []) (hb : b ≠ []) :
    joinNL (a ++ b) = joinNL a ++ '\n' :: joinNL b := by
  induction a with
  | nil => exact absurd rfl ha
  | cons x a' ih =>
      cases a' with
      | nil =>
          cases b with
          | nil => exact absurd rfl hb
          | cons y ys => simp [joinNL]
      | cons z a'' =>
          have h2 : joinNL (x :: (z :: (a'' ++ b))) = x ++ '\n' :: joinNL (z :: (a'' ++ b)) := rfl
          have h3 : joinNL (x :: z :: a'') = x ++ '\n' :: joinNL (z :: a'') := rfl
          rw [List.cons_append, List.cons_append, h2, ← List.cons_append, ih (by simp), h3]
          simp

/-- A contiguous slice of the line list corresponds to a literal slice of
the joined text: the join of the whole list splits positionally around the
join of the middle slice. -/
lemma joinNL_decompose (lines : List (List Char)) (s k : Nat)
    (hs : s + k ≤ lines.length) (hk : 0 < k) :
    joinNL lines =
      (if s = 0 then [] else joinNL (lines.take s) ++ ['\n']) ++
        joinNL ((lines.drop s).take k) ++
        (if s + k = lines.length then [] else '\n' :: joinNL (lines.drop (s + k))) := by
  set A := lines.take s with hA
  set M := (lines.drop s).take k with hM
  set D := lines.drop (s + k) with hD
  have hsplit : lines = A ++ (M ++ D) := by
    rw [hA, hM, hD,
      show lines.drop (s + k) = (lines.drop s).drop k by rw [List.drop_drop, Nat.add_comm]]
    rw [List.take_append_drop, List.take_append_drop]
  have hmidlen : M.length = k := by
    rw [hM, List.length_take, List.length_drop]
    omega
  have hmidne : M ≠ [] := by
    intro h
    rw [h] at hmidlen
    simp at hmidlen
    omega
  have hAnil : s = 0 → A = [] := by
    intro h; rw [hA, h, List.take_zero]
  have hAne : s ≠ 0 → A ≠ [] := by
    intro h
    rw [hA, ne_eq, List.take_eq_nil_iff]
    push_neg
    exact ⟨h, by intro hl; rw [hl] at hs; simp at hs; omega⟩
  have hDnil : s + k = lines.length → D = [] := by
    intro h; rw [hD, List.drop_eq_nil_iff]; omega
  have hDne : s + k ≠ lines.length → D ≠ [] := by
    intro h; rw [hD, ne_eq, List.drop_eq_nil_iff]; omega
  by_cases hs0 : s = 0
  · rw [if_pos hs0, List.nil_append]
    by_cases hend : s + k = lines.length
    · rw [if_pos hend]
      conv_lhs => rw [hsplit]
      rw [hAnil hs0, hDnil hend, List.nil_append, List.append_nil, List.append_nil]
    · rw [if_neg hend]
      conv_lhs => rw [hsplit]
      rw [hAnil hs0, List.nil_append, joinNL_append _ _ hmidne (hDne hend)]
  · rw [if_neg hs0]
    by_cases hend : s + k = lines.length
    · rw [if_pos hend]
      conv_lhs => rw [hsplit]
      rw [hDnil hend, List.append_nil, joinNL_append _ _ (hAne hs0) hmidne, List.append_nil]
      simp
    · rw [if_neg hend]
      conv_lhs => rw [hsplit]
      rw [joinNL_append _ _ (hAne hs0) (by simp [hmidne]),
        joinNL_append _ _ hmidne (hDne hend)]
      simp

/-- C1: `extract_lines` fails exactly when `start_line < 1`, or
`end_line > total_lines`, or `start_line > end_line`; on every other pair it
(deterministically, being a pure function that leaves the document untouched)
returns the original lines `start_line..end_line` joined with newlines, and
that result is byte-for-byte the corresponding slice of the input text:
the input text factors as `prefix ++ result ++ suffix` at the line
boundaries, blank lines included. -/
theorem extract_lines_exact_slice (text : List Char) (s e : Int) :
    ((∃ msg, extractLines (addLineNumbers text) s e = .error msg) ↔
      s < 1 ∨ e > (addLineNumbers text).total_lines ∨ s > e) ∧
    (1 ≤ s → e ≤ (addLineNumbers text).total_lines → s ≤ e →
      extractLines (addLineNumbers text) s e =
        .ok (joinNL (((splitNL text).drop (s - 1).toNat).take (e - (s - 1)).toNat)) ∧
      text =
        (if s = 1 then [] else joinNL ((splitNL text).take (s - 1).toNat) ++ ['\n']) ++
          joinNL (((splitNL text).drop (s - 1).toNat).take (e - (s - 1)).toNat) ++
          (if e = (addLineNumbers text).total_lines then []
            else '\n' :: joinNL ((splitNL text).drop e.toNat))) := by
  have hdoc2 : (addLineNumbers text).total_lines = ((splitNL text).length : Int) := rfl
  rw [hdoc2]
  constructor
  · constructor
    · rintro ⟨msg, hmsg⟩
      by_contra hcon
      push_neg at hcon
      obtain ⟨h1, h2, h3⟩ := hcon
      simp only [extractLines, hdoc2] at hmsg
      rw [if_neg (by push_neg; refine ⟨by omega, by omega, by omega⟩)] at hmsg
      exact Except.noConfusion hmsg
    · intro h
      simp only [extractLines, hdoc2]
      rw [if_pos (by omega)]
      exact ⟨_, rfl⟩
  · intro h1 h2 h3
    constructor
    · simp only [extractLines, hdoc2]
      rw [if_neg (by push_neg; refine ⟨by omega, by omega, by omega⟩)]
      rfl
    · have hk : 0 < (e - (s - 1)).toNat := by omega
      have hlen : (s - 1).toNat + (e - (s - 1)).toNat ≤ (splitNL text).length := by omega
      have hdec := joinNL_decompose (splitNL text) (s - 1).toNat (e - (s - 1)).toNat hlen hk
      rw [joinNL_splitNL] at hdec
      have hsk : (s - 1).toNat + (e - (s - 1)).toNat = e.toNat := by omega
      rw [hsk] at hdec
      have hifs : ((s - 1).toNat = 0) = (s = 1) := by
        apply propext; omega
      have hife : (e.toNat = (splitNL text).length) = (e = ((splitNL text).length : Int)) := by
        apply propext; omega
      simp only [hifs, hife] at hdec
      exact hdec

/-- Witness for the hypotheses of `extract_lines_exact_slice`: extracting
lines 2..3 of the concrete text "ab\n\ncd\nef" succeeds. -/
theorem extract_lines_exact_slice_witness :
    ∃ r, extractLines (addLineNumbers ['a', 'b', '\n', '\n', 'c', 'd', '\n', 'e', 'f']) 2 3 =
      Except.ok r :=
  ⟨_, ((extract_lines_exact_slice ['a', 'b', '\n', '\n', 'c', 'd', '\n', 'e', 'f'] 2 3).2
    (by decide) (by decide) (by decide)).1⟩

/-! ### Segmentation-stage lemmas -/

/-- The fields of a `SectionReference` other than its line range. -/
def sectionMeta (s : SectionReference) : String × Option String × Option String × Option Int :=
  (s.section_type, s.section_title, s.section_number, s.line_item_number)

/-- Classifier for the two warnings only `lastFix` can emit. -/
def isLastWarn : SegWarning → Bool
  | .lastExtended _ _ => true
  | .lastShort _ _ => true
  | _ => false

lemma pairFix_start (cur nxt : SectionReference) :
    (pairFix cur nxt).1.start_line = cur.start_line := by
  simp only [pairFix]
  split_ifs <;> rfl

lemma pairFix_meta (cur nxt : SectionReference) :
    sectionMeta (pairFix cur nxt).1 = sectionMeta cur := by
  simp only [pairFix]
  split_ifs <;> rfl

lemma pairFix_end_le (cur nxt : SectionReference) :
    (pairFix cur nxt).1.end_line ≤ nxt.start_line - 1 := by
  simp only [pairFix]
  split_ifs <;> simp_all <;> omega

lemma pairFix_gapfill (cur nxt : SectionReference)
    (h1 : 0 < nxt.start_line - cur.end_line - 1) (h2 : nxt.start_line - cur.end_line - 1 ≤ 3) :
    pairFix cur nxt =
      ({ cur with end_line := nxt.start_line - 1 },
        [.gapFilled cur.end_line (nxt.start_line - 1) (nxt.start_line - cur.end_line - 1)]) := by
  simp only [pairFix]
  split_ifs <;> first | rfl | omega

lemma pairFix_gapbig (cur nxt : SectionReference)
    (h : 3 < nxt.start_line - cur.end_line - 1) :
    pairFix cur nxt =
      (cur, [.gapBig (nxt.start_line - cur.end_line - 1) cur.end_line nxt.start_line]) := by
  simp only [pairFix]
  split_ifs <;> first | rfl | omega

lemma pairFix_warn_not_last (cur nxt : SectionReference) :
    ∀ w ∈ (pairFix cur nxt).2, isLastWarn w = false := by
  intro w hw
  simp only [pairFix] at hw
  split_ifs at hw <;>
    simp only [List.mem_append, List.mem_singleton, List.mem_cons,
      List.not_mem_nil, or_false, false_or] at hw
  all_goals try (subst hw; rfl)
  all_goals (rcases hw with rfl | rfl <;> rfl)

lemma firstFix_length (l : List SectionReference) : (firstFix l).1.length = l.length := by
  cases l with
  | nil => rfl
  | cons s rest =>
      simp only [firstFix]
      split_ifs <;> simp

lemma firstFix_meta (l : List SectionReference) (i : Nat) :
    ((firstFix l).1[i]?).map sectionMeta = (l[i]?).map sectionMeta := by
  cases l with
  | nil => rfl
  | cons s rest =>
      simp only [firstFix]
      split_ifs <;> cases i <;> simp [sectionMeta]

lemma firstFix_end (l : List SectionReference) (i : Nat) :
    ((firstFix l).1[i]?).map SectionReference.end_line = (l[i]?).map SectionReference.end_line := by
  cases l with
  | nil => rfl
  | cons s rest =>
      simp only [firstFix]
      split_ifs <;> cases i <;> simp

lemma firstFix_succ (l : List SectionReference) (i : Nat) :
    (firstFix l).1[i + 1]? = l[i + 1]? := by
  cases l with
  | nil => rfl
  | cons s rest =>
      simp only [firstFix]
      split_ifs <;> simp

lemma firstFix_warn_not_last (l : List SectionReference) :
    ∀ w ∈ (firstFix l).2, isLastWarn w = false := by
  cases l with
  | nil => simp [firstFix]
  | cons s rest =>
      intro w hw
      simp only [firstFix] at hw
      split_ifs at hw <;>
        simp only [List.mem_singleton, List.not_mem_nil] at hw
      all_goals (subst hw; rfl)

lemma fixAdjacent_length (l : List SectionReference) : (fixAdjacent l).1.length = l.length := by
  induction l with
  | nil => rfl
  | cons s rest ih =>
      cases rest with
      | nil => rfl
      | cons t rest' =>
          simp only [fixAdjacent, List.length_cons]
          rw [ih]
          simp

lemma fixAdjacent_getElem (l : List SectionReference) (i : Nat) (a b : SectionReference)
    (ha : l[i]? = some a) (hb : l[i + 1]? = some b) :
    ((fixAdjacent l).1)[i]? = some (pairFix a b).1 := by
  induction l generalizing i with
  | nil => simp at ha
  | cons s rest ih =>
      cases rest with
      | nil =>
          cases i <;> simp_all
      | cons t rest' =>
          cases i with
          | zero =>
              simp only [List.getElem?_cons_zero] at ha
              simp only [List.getElem?_cons_succ, List.getElem?_cons_zero] at hb
              obtain rfl := Option.some.inj ha
              obtain rfl := Option.some.inj hb
              simp [fixAdjacent]
          | succ i' =>
              rw [List.getElem?_cons_succ] at ha hb
              simpa [fixAdjacent] using ih i' ha hb

lemma fixAdjacent_meta (l : List SectionReference) (i : Nat) :
    (((fixAdjacent l).1)[i]?).map sectionMeta = (l[i]?).map sectionMeta := by
  induction l generalizing i with
  | nil => rfl
  | cons s rest ih =>
      cases rest with
      | nil => rfl
      | cons t rest' =>
          cases i with
          | zero => simp [fixAdjacent, pairFix_meta]
          | succ i' => simpa [fixAdjacent] using ih i'

lemma fixAdjacent_start (l : List SectionReference) (i : Nat) :
    (((fixAdjacent l).1)[i]?).map SectionReference.start_line =
      (l[i]?).map SectionReference.start_line := by
  induction l generalizing i with
  | nil => rfl
  | cons s rest ih =>
      cases rest with
      | nil => rfl
      | cons t rest' =>
          cases i with
          | zero => simp [fixAdjacent, pairFix_start]
          | succ i' => simpa [fixAdjacent] using ih i'

lemma fixAdjacent_getLast? (l : List SectionReference) :
    (fixAdjacent l).1.getLast? = l.getLast? := by
  induction l with
  | nil => rfl
  | cons s rest ih =>
      cases rest with
      | nil => rfl
      | cons t rest' =>
          have h1 : (fixAdjacent (s :: t :: rest')).1 =
              (pairFix s t).1 :: (fixAdjacent (t :: rest')).1 := by
            simp [fixAdjacent]
          rw [h1]
          obtain ⟨u, us, hus⟩ : ∃ u us, (fixAdjacent (t :: rest')).1 = u :: us := by
            rcases h : (fixAdjacent (t :: rest')).1 with _ | ⟨u, us⟩
            · have := fixAdjacent_length (t :: rest')
              rw [h] at this
              simp at this
            · exact ⟨u, us, rfl⟩
          rw [hus, List.getLast?_cons_cons, List.getLast?_cons_cons, ← hus, ih]

lemma fixAdjacent_warn_mem (l : List SectionReference) (i : Nat) (a b : SectionReference)
    (ha : l[i]? = some a) (hb : l[i + 1]? = some b) :
    ∀ w ∈ (pairFix a b).2, w ∈ (fixAdjacent l).2 := by
  induction l generalizing i with
  | nil => simp at ha
  | cons s rest ih =>
      cases rest with
      | nil => cases i <;> simp_all
      | cons t rest' =>
          cases i with
          | zero =>
              simp only [List.getElem?_cons_zero] at ha
              simp only [List.getElem?_cons_succ, List.getElem?_cons_zero] at hb
              obtain rfl := Option.some.inj ha
              obtain rfl := Option.some.inj hb
              intro w hw
              simp [fixAdjacent, hw]
          | succ i' =>
              rw [List.getElem?_cons_succ] at ha hb
              intro w hw
              have hmem := ih i' ha hb w hw
              simp only [fixAdjacent, List.mem_append]
              exact Or.inr hmem

lemma fixAdjacent_warn_not_last (l : List SectionReference) :
    ∀ w ∈ (fixAdjacent l).2, isLastWarn w = false := by
  induction l with
  | nil => simp [fixAdjacent]
  | cons s rest ih =>
      cases rest with
      | nil => simp [fixAdjacent]
      | cons t rest' =>
          intro w hw
          simp only [fixAdjacent, List.mem_append] at hw
          rcases hw with hw | hw
          · exact pairFix_warn_not_last s t w hw
          · exact ih w hw

lemma lastFix_length (total : Int) (l : List SectionReference) :
    (lastFix total l).1.length = l.length := by
  induction l with
  | nil => rfl
  | cons s rest ih =>
      cases rest with
      | nil =>
          simp only [lastFix]
          split_ifs <;> rfl
      | cons t rest' =>
          simp only [lastFix, List.length_cons]
          rw [ih]
          simp

lemma lastFix_getElem_lt (total : Int) (l : List SectionReference) (i : Nat)
    (h : i + 1 < l.length) : ((lastFix total l).1)[i]? = l[i]? := by
  induction l generalizing i with
  | nil => simp at h
  | cons s rest ih =>
      cases rest with
      | nil => simp at h
      | cons t rest' =>
          cases i with
          | zero => simp [lastFix]
          | succ i' =>
              simp only [List.length_cons] at h
              have := ih i' (by simpa using h)
              simp only [lastFix, List.getElem?_cons_succ]
              exact this

lemma lastFix_getLast (total : Int) (l : List SectionReference) (a : SectionReference)
    (ha : l.getLast? = some a) :
    (lastFix total l).1.getLast? = some (lastAdjust total a) ∧
      (lastFix total l).2 = (lastFix total [a]).2 := by
  induction l with
  | nil => simp at ha
  | cons s rest ih =>
      cases rest with
      | nil =>
          simp only [List.getLast?_singleton] at ha
          obtain rfl := Option.some.inj ha
          constructor
          · simp only [lastFix, lastAdjust]
            split_ifs <;> rfl
          · rfl
      | cons t rest' =>
          rw [List.getLast?_cons_cons] at ha
          obtain ⟨h1, h2⟩ := ih ha
          refine ⟨?_, by simpa [lastFix] using h2⟩
          obtain ⟨u, us, hus⟩ : ∃ u us, (lastFix total (t :: rest')).1 = u :: us := by
            rcases h : (lastFix total (t :: rest')).1 with _ | ⟨u, us⟩
            · have := lastFix_length total (t :: rest')
              rw [h] at this
              simp at this
            · exact ⟨u, us, rfl⟩
          have : (lastFix total (s :: t :: rest')).1 = s :: (lastFix total (t :: rest')).1 := by
            simp [lastFix]
          rw [this, hus, List.getLast?_cons_cons, ← hus, h1]

lemma lastFix_meta (total : Int) (l : List SectionReference) (i : Nat) :
    (((lastFix total l).1)[i]?).map sectionMeta = (l[i]?).map sectionMeta := by
  induction l generalizing i with
  | nil => rfl
  | cons s rest ih =>
      cases rest with
      | nil =>
          cases i with
          | zero =>
              simp only [lastFix]
              split_ifs <;> simp [sectionMeta]
          | succ i' =>
              simp only [lastFix]
              split_ifs <;> simp
      | cons t rest' =>
          cases i with
          | zero => simp [lastFix]
          | succ i' => simpa [lastFix] using ih i'

lemma lastFix_start (total : Int) (l : List SectionReference) (i : Nat) :
    (((lastFix total l).1)[i]?).map SectionReference.start_line =
      (l[i]?).map SectionReference.start_line := by
  induction l generalizing i with
  | nil => rfl
  | cons s rest ih =>
      cases rest with
      | nil =>
          cases i with
          | zero =>
              simp only [lastFix]
              split_ifs <;> simp
          | succ i' =>
              simp only [lastFix]
              split_ifs <;> simp
      | cons t rest' =>
          cases i with
          | zero => simp [lastFix]
          | succ i' => simpa [lastFix] using ih i'

lemma lastFix_warn_shape (total : Int) (l : List SectionReference) :
    ∀ w ∈ (lastFix total l).2, isLastWarn w = true := by
  induction l with
  | nil => simp [lastFix]
  | cons s rest ih =>
      cases rest with
      | nil =>
          intro w hw
          simp only [lastFix] at hw
          split_ifs at hw <;>
            simp only [List.mem_singleton, List.not_mem_nil] at hw
          all_goals first | exact hw.elim | (subst hw; rfl)
      | cons t rest' =>
          intro w hw
          simp only [lastFix] at hw
          exact ih w hw

lemma coverageWarn_not_last (l : List SectionReference) (total : Int) :
    ∀ w ∈ coverageWarn l total, isLastWarn w = false := by
  intro w hw
  simp only [coverageWarn] at hw
  split_ifs at hw <;> simp only [List.mem_singleton, List.not_mem_nil] at hw
  subst hw; rfl

lemma sortSections_length (l : List SectionReference) :
    (sortSections l).length = l.length := by
  simp [sortSections]

lemma sortSections_sorted (l : List SectionReference) :
    (sortSections l).Sorted (fun a b => a.start_line ≤ b.start_line) := by
  haveI : IsTotal SectionReference (fun a b => a.start_line ≤ b.start_line) :=
    ⟨fun a b => le_total _ _⟩
  haveI : IsTrans SectionReference (fun a b => a.start_line ≤ b.start_line) :=
    ⟨fun _ _ _ h1 h2 => le_trans h1 h2⟩
  exact List.sorted_insertionSort _ l

/-- C9: for every non-empty input, `validate_segmentation` returns exactly as
many sections as it was given, and each output section agrees with the
correspondingly-indexed section of the start-line-sorted input on
`section_type`, `section_title`, `section_number` and `line_item_number` —
repair can only rewrite `start_line`/`end_line`, and never drops, adds,
merges or relabels a section. -/
theorem validate_segmentation_frame (sections : List SectionReference) (total : Int)
    (h : sections ≠ []) :
    ((validateSegmentation sections total).1).length = sections.length ∧
    ∀ i : Nat, (((validateSegmentation sections total).1)[i]?).map sectionMeta =
      ((sortSections sections)[i]?).map sectionMeta := by
  rw [validateSegmentation, if_neg h]
  dsimp only
  constructor
  · rw [lastFix_length, fixAdjacent_length, firstFix_length, sortSections_length]
  · intro i
    rw [lastFix_meta, fixAdjacent_meta, firstFix_meta]

/-- Witness for `validate_segmentation_frame` on a concrete two-section input. -/
theorem validate_segmentation_frame_witness :
    ((validateSegmentation
        [{ start_line := 1, end_line := 10, section_type := "header" },
         { start_line := 15, end_line := 30, section_type := "terms_and_conditions" }] 30).1).length = 2 ∧
    (((validateSegmentation
        [{ start_line := 1, end_line := 10, section_type := "header" },
         { start_line := 15, end_line := 30, section_type := "terms_and_conditions" }] 30).1)[0]?).map
        sectionMeta =
      ((sortSections
        [{ start_line := 1, end_line := 10, section_type := "header" },
         { start_line := 15, end_line := 30, section_type := "terms_and_conditions" }])[0]?).map
        sectionMeta := by
  have h := validate_segmentation_frame
    [{ start_line := 1, end_line := 10, section_type := "header" },
     { start_line := 15, end_line := 30, section_type := "terms_and_conditions" }] 30
    (by decide)
  exact ⟨h.1, h.2 0⟩

/-- C3: in segmentation repair, for each adjacent pair `(current, next)` of the
sorted list, with `gap = next.start_line - current.end_line - 1`: if
`0 < gap ≤ 3` the pair step extends `current`'s end to `next.start_line - 1`
and emits the repair warning; if `gap > 3` the pair step leaves both
boundaries unchanged and emits only the discrepancy warning. The final
conjunct checks the spec's concrete scenario: `[(1,10),(15,30)]` with
`total_lines = 30` (a 4-line gap) comes back unchanged, with the gap
discrepancy warning (and the consequent coverage warning), not repaired. -/
theorem validate_segmentation_gap_rule :
    (∀ cur nxt : SectionReference,
      0 < nxt.start_line - cur.end_line - 1 → nxt.start_line - cur.end_line - 1 ≤ 3 →
        pairFix cur nxt =
          ({ cur with end_line := nxt.start_line - 1 },
            [.gapFilled cur.end_line (nxt.start_line - 1) (nxt.start_line - cur.end_line - 1)])) ∧
    (∀ cur nxt : SectionReference,
      3 < nxt.start_line - cur.end_line - 1 →
        pairFix cur nxt =
          (cur, [.gapBig (nxt.start_line - cur.end_line - 1) cur.end_line nxt.start_line])) ∧
    (∀ (sections : List SectionReference) (total : Int) (i : Nat) (a b : SectionReference),
      sections ≠ [] →
      ((firstFix (sortSections sections)).1)[i]? = some a →
      ((firstFix (sortSections sections)).1)[i + 1]? = some b →
      ((validateSegmentation sections total).1)[i]? = some (pairFix a b).1 ∧
        ∀ w ∈ (pairFix a b).2, w ∈ (validateSegmentation sections total).2) ∧
    validateSegmentation
        [{ start_line := 1, end_line := 10, section_type := "header" },
         { start_line := 15, end_line := 30, section_type := "terms_and_conditions" }] 30 =
      ([{ start_line := 1, end_line := 10, section_type := "header" },
        { start_line := 15, end_line := 30, section_type := "terms_and_conditions" }],
       [.gapBig 4 10 15, .uncovered [11, 12, 13, 14] false]) := by
  refine ⟨fun cur nxt h1 h2 => pairFix_gapfill cur nxt h1 h2,
    fun cur nxt h => pairFix_gapbig cur nxt h, ?_, by decide⟩
  intro sections total i a b hne ha hb
  rw [validateSegmentation, if_neg hne]
  dsimp only
  have hblt : i + 1 < ((firstFix (sortSections sections)).1).length := by
    by_contra hz
    rw [List.getElem?_eq_none (by omega)] at hb
    exact Option.noConfusion hb
  have hlt : i + 1 < ((fixAdjacent (firstFix (sortSections sections)).1).1).length := by
    rw [fixAdjacent_length]
    exact hblt
  constructor
  · rw [lastFix_getElem_lt _ _ _ hlt]
    exact fixAdjacent_getElem _ i a b ha hb
  · intro w hw
    have := fixAdjacent_warn_mem _ i a b ha hb w hw
    simp only [List.mem_append]
    exact Or.inl (Or.inl (Or.inr this))

/-- Witness for the pair-rule hypotheses of `validate_segmentation_gap_rule`
at the concrete 4-line-gap scenario input. -/
theorem validate_segmentation_gap_rule_witness :
    ((validateSegmentation
        [{ start_line := 1, end_line := 10, section_type := "header" },
         { start_line := 15, end_line := 30, section_type := "terms_and_conditions" }] 30).1)[0]? =
      some (pairFix { start_line := 1, end_line := 10, section_type := "header" }
        { start_line := 15, end_line := 30, section_type := "terms_and_conditions" }).1 ∧
    pairFix { start_line := (20 : Int), end_line := 25, section_type := "other" }
        { start_line := 28, end_line := 40, section_type := "other" } =
      ({ start_line := (20 : Int), end_line := 27, section_type := "other" },
        [.gapFilled 25 27 2]) :=
  ⟨(validate_segmentation_gap_rule.2.2.1
      [{ start_line := 1, end_line := 10, section_type := "header" },
       { start_line := 15, end_line := 30, section_type := "terms_and_conditions" }] 30 0
      { start_line := 1, end_line := 10, section_type := "header" }
      { start_line := 15, end_line := 30, section_type := "terms_and_conditions" }
      (by decide) (by decide) (by decide)).1,
   validate_segmentation_gap_rule.1
     { start_line := (20 : Int), end_line := 25, section_type := "other" }
     { start_line := 28, end_line := 40, section_type := "other" } (by decide) (by decide)⟩

/-- C6 counterexample: for the single boundary `(1,20)` with `total_lines = 10`
(last end exceeds `total_lines` by 10 > 5), `validate_segmentation` returns the
boundary unchanged with an EMPTY warning list — the mismatch is silently
ignored, refuting "the mismatch is always surfaced to the caller". -/
theorem validate_segmentation_overshoot_silent :
    validateSegmentation
        [{ start_line := 1, end_line := 20, section_type := "terms_and_conditions" }] 10 =
      ([{ start_line := 1, end_line := 20, section_type := "terms_and_conditions" }], []) ∧
    ({ start_line := 1, end_line := 20,
       section_type := "terms_and_conditions" : SectionReference }).end_line ≠ (10 : Int) := by
  constructor
  · decide
  · decide

/-- C6 (amended): let `a` be the last section after sorting and gap/overlap
repair. If `a.end_line ≠ total` and `|total - a.end_line| ≤ 5`, the end is set
to `total` with a repair warning; if the document extends more than 5 lines
past `a.end_line`, a discrepancy warning is emitted; but if `a.end_line`
exceeds `total` by more than 5 lines the section is returned unchanged and NO
last-section warning of either kind appears — that mismatch is silently
ignored, contrary to the original claim. -/
theorem validate_segmentation_last_rule (sections : List SectionReference) (total : Int)
    (h : sections ≠ []) (a : SectionReference)
    (ha : ((fixAdjacent (firstFix (sortSections sections)).1).1).getLast? = some a) :
    (a.end_line ≠ total → (total - a.end_line).natAbs ≤ 5 →
      ((validateSegmentation sections total).1).getLast? = some { a with end_line := total } ∧
        SegWarning.lastExtended a.end_line total ∈ (validateSegmentation sections total).2) ∧
    (a.end_line ≠ total → 5 < total - a.end_line →
      ((validateSegmentation sections total).1).getLast? = some a ∧
        SegWarning.lastShort a.end_line total ∈ (validateSegmentation sections total).2) ∧
    (5 < a.end_line - total →
      ((validateSegmentation sections total).1).getLast? = some a ∧
        ∀ w ∈ (validateSegmentation sections total).2, isLastWarn w = false) := by
  rw [validateSegmentation, if_neg h]
  dsimp only
  obtain ⟨hlast, hwarn⟩ := lastFix_getLast total _ a ha
  refine ⟨?_, ?_, ?_⟩
  · intro hne hle
    constructor
    · rw [hlast, lastAdjust, if_pos hne, if_pos hle]
    · simp only [List.mem_append, hwarn]
      refine Or.inl (Or.inr ?_)
      simp only [lastFix]
      rw [if_pos hne, if_pos hle]
      simp
  · intro hne hgt
    have hnabs : ¬ (total - a.end_line).natAbs ≤ 5 := by omega
    constructor
    · rw [hlast, lastAdjust, if_pos hne, if_neg hnabs]
    · simp only [List.mem_append, hwarn]
      refine Or.inl (Or.inr ?_)
      simp only [lastFix]
      rw [if_pos hne, if_neg hnabs, if_pos (by omega)]
      simp
  · intro hover
    have hne : a.end_line ≠ total := by omega
    have hnabs : ¬ (total - a.end_line).natAbs ≤ 5 := by omega
    constructor
    · rw [hlast, lastAdjust, if_pos hne, if_neg hnabs]
    · intro w hw
      simp only [List.mem_append, hwarn] at hw
      rcases hw with ((hw | hw) | hw) | hw
      · exact firstFix_warn_not_last _ w hw
      · exact fixAdjacent_warn_not_last _ w hw
      · simp only [lastFix] at hw
        rw [if_pos hne, if_neg hnabs, if_neg (by omega)] at hw
        exact absurd hw (List.not_mem_nil w)
      · exact coverageWarn_not_last _ _ w hw

/-- Witness for `validate_segmentation_last_rule`: for the single boundary
`(1,12)` with `total_lines = 10` (2 lines past the end, within the 5-line
bound) the last section is clamped to end at 10 with a repair warning. -/
theorem validate_segmentation_last_rule_witness :
    ((validateSegmentation [{ start_line := 1, end_line := 12, section_type := "other" }] 10).1).getLast? =
      some { start_line := 1, end_line := 10, section_type := "other" } ∧
    SegWarning.lastExtended 12 10 ∈
      (validateSegmentation [{ start_line := 1, end_line := 12, section_type := "other" }] 10).2 :=
  (validate_segmentation_last_rule
    [{ start_line := 1, end_line := 12, section_type := "other" }] 10 (by decide)
    { start_line := 1, end_line := 12, section_type := "other" } (by decide)).1
    (by decide) (by decide)

lemma pairFix_end_cases (cur nxt : SectionReference) :
    (pairFix cur nxt).1.end_line = cur.end_line ∨
      (pairFix cur nxt).1.end_line = nxt.start_line - 1 := by
  simp only [pairFix]
  split_ifs <;> simp

lemma fixAdjacent_startend (l : List SectionReference)
    (hchain : l.Pairwise (fun x y => x.start_line < y.start_line))
    (hok : ∀ s ∈ l, s.start_line ≤ s.end_line) :
    ∀ s ∈ (fixAdjacent l).1, s.start_line ≤ s.end_line := by
  induction l with
  | nil => simp [fixAdjacent]
  | cons s rest ih =>
      cases rest with
      | nil =>
          simpa [fixAdjacent] using hok s (by simp)
      | cons t rest' =>
          have hst : s.start_line < t.start_line :=
            (List.pairwise_cons.mp hchain).1 t (by simp)
          intro x hx
          have hshape : (fixAdjacent (s :: t :: rest')).1 =
              (pairFix s t).1 :: (fixAdjacent (t :: rest')).1 := by
            simp [fixAdjacent]
          rw [hshape] at hx
          rcases List.mem_cons.mp hx with rfl | hx
          · rw [pairFix_start]
            rcases pairFix_end_cases s t with he | he <;> rw [he]
            · exact hok s (by simp)
            · omega
          · exact ih (List.pairwise_cons.mp hchain).2
              (fun y hy => hok y (List.mem_cons_of_mem s hy)) x hx

lemma lastFix_startend (total : Int) (l : List SectionReference)
    (hok : ∀ s ∈ l, s.start_line ≤ s.end_line)
    (hlast : ∀ a, l.getLast? = some a → a.start_line ≤ total) :
    ∀ s ∈ (lastFix total l).1, s.start_line ≤ s.end_line := by
  induction l with
  | nil => simp [lastFix]
  | cons s rest ih =>
      cases rest with
      | nil =>
          have hs := hok s (by simp)
          have hst := hlast s (by simp)
          intro x hx
          simp only [lastFix] at hx
          split_ifs at hx <;> simp only [List.mem_singleton] at hx <;> subst hx
          · simpa using hst
          · exact hs
          · exact hs
          · exact hs
      | cons t rest' =>
          intro x hx
          have hshape : (lastFix total (s :: t :: rest')).1 =
              s :: (lastFix total (t :: rest')).1 := by
            simp [lastFix]
          rw [hshape] at hx
          rcases List.mem_cons.mp hx with rfl | hx
          · exact hok x (by simp)
          · exact ih (fun y hy => hok y (List.mem_cons_of_mem s hy))
              (fun a ha => hlast a (by rwa [List.getLast?_cons_cons])) x hx

lemma firstFix_props (l : List SectionReference) (total : Int)
    (hok : ∀ s ∈ l, 1 ≤ s.start_line ∧ s.start_line ≤ s.end_line)
    (hchain : l.Pairwise (fun x y => x.start_line < y.start_line))
    (hlast : ∀ a, l.getLast? = some a → a.start_line ≤ total) :
    (∀ s ∈ (firstFix l).1, s.start_line ≤ s.end_line) ∧
    ((firstFix l).1.Pairwise (fun x y => x.start_line < y.start_line)) ∧
    (∀ a, (firstFix l).1.getLast? = some a → a.start_line ≤ total) := by
  cases l with
  | nil => simp [firstFix]
  | cons s rest =>
      have hs := hok s (by simp)
      simp only [firstFix]
      split_ifs with h1 h2
      · refine ⟨?_, ?_, ?_⟩
        · intro x hx
          rcases List.mem_cons.mp hx with rfl | hx
          · simpa using by omega
          · exact (hok x (List.mem_cons_of_mem s hx)).2
        · rw [List.pairwise_cons]
          refine ⟨?_, (List.pairwise_cons.mp hchain).2⟩
          intro y hy
          have := (List.pairwise_cons.mp hchain).1 y hy
          simpa using by omega
        · intro a ha
          cases rest with
          | nil =>
              simp only [List.getLast?_singleton] at ha
              obtain rfl := Option.some.inj ha
              have := hlast s (by simp)
              simpa using by omega
          | cons t rest' =>
              rw [List.getLast?_cons_cons] at ha
              exact hlast a (by rwa [List.getLast?_cons_cons])
      · exact ⟨fun x hx => (hok x hx).2, hchain, hlast⟩
      · exact ⟨fun x hx => (hok x hx).2, hchain, hlast⟩

/-- C10 counterexample: both input boundaries `(1,5)` and `(1,8)` satisfy
`start ≤ end` (and the Pydantic `ge=1` bounds), yet the repaired output
contains the inverted boundary `(1,0)`: the overlap-shrink step rewrote the
first section's end to `next.start_line - 1 = 0` because both sections start
on the same line. -/
theorem validate_segmentation_inverted_range :
    (∀ s ∈ [{ start_line := 1, end_line := 5, section_type := "header" },
            { start_line := 1, end_line := 8,
              section_type := "terms_and_conditions" : SectionReference }],
        1 ≤ s.start_line ∧ s.start_line ≤ s.end_line) ∧
    ∃ s ∈ (validateSegmentation
        [{ start_line := 1, end_line := 5, section_type := "header" },
         { start_line := 1, end_line := 8, section_type := "terms_and_conditions" }] 8).1,
      s.end_line < s.start_line := by
  constructor
  · decide
  · decide

/-- C10 (amended): if additionally no two input sections share a start line and
the last sorted section starts no later than `total_lines` (both violated only
by degenerate oracle output — the counterexample shares a start line), then
every section in `validate_segmentation`'s output satisfies
`start_line ≤ end_line`: gap-filling, overlap-shrinking and edge extension
never invert a range. -/
theorem validate_segmentation_no_inversion (sections : List SectionReference) (total : Int)
    (h : sections ≠ [])
    (hok : ∀ s ∈ sections, 1 ≤ s.start_line ∧ s.start_line ≤ s.end_line)
    (hdist : sections.Pairwise (fun x y => x.start_line ≠ y.start_line))
    (hlast : ((sortSections sections).getLast?).all
      (fun a => decide (a.start_line ≤ total)) = true) :
    ∀ s ∈ (validateSegmentation sections total).1, s.start_line ≤ s.end_line := by
  rw [validateSegmentation, if_neg h]
  dsimp only
  have hok0 : ∀ s ∈ sortSections sections, 1 ≤ s.start_line ∧ s.start_line ≤ s.end_line := by
    intro s hs
    exact hok s (by simpa [sortSections] using hs)
  have hperm : (sortSections sections).Perm sections :=
    List.perm_insertionSort _ sections
  have hdist0 : (sortSections sections).Pairwise (fun x y => x.start_line ≠ y.start_line) :=
    (List.Perm.pairwise_iff (fun {_ _} hxy => hxy.symm) hperm).mpr hdist
  have hchain0 : (sortSections sections).Pairwise
      (fun x y => x.start_line < y.start_line) :=
    ((sortSections_sorted sections).and hdist0).imp
      (fun hxy => lt_of_le_of_ne hxy.1 hxy.2)
  have hlast0 : ∀ a, (sortSections sections).getLast? = some a → a.start_line ≤ total := by
    intro a ha
    rw [ha] at hlast
    simpa using hlast
  obtain ⟨hok1, hchain1, hlast1⟩ := firstFix_props (sortSections sections) total hok0 hchain0 hlast0
  refine lastFix_startend total _ ?_ ?_
  · exact fixAdjacent_startend _ hchain1 hok1
  · intro a ha
    rw [fixAdjacent_getLast?] at ha
    exact hlast1 a ha

/-- Witness for `validate_segmentation_no_inversion` on the concrete input
`[(1,3),(5,8)]`, `total_lines = 8`: the gap-filled first output section
`(1,4)` is not inverted. -/
theorem validate_segmentation_no_inversion_witness :
    ({ start_line := 1, end_line := 4, section_type := "header" } : SectionReference).start_line ≤
      ({ start_line := 1, end_line := 4, section_type := "header" } : SectionReference).end_line :=
  validate_segmentation_no_inversion
    [{ start_line := 1, end_line := 3, section_type := "header" },
     { start_line := 5, end_line := 8, section_type := "terms_and_conditions" }] 8
    (by decide) (by decide) (by decide) (by decide)
    { start_line := 1, end_line := 4, section_type := "header" } (by decide)

/-- C4 counterexample: for the boundary list `[(1,2),(30,31),(60,80)]` with
`total_lines = 80`, repair leaves two unrepaired gaps, so lines `3..29` and
`32..59` (55 lines) are uncovered; the two gap warnings each identify only
their own interval, and the coverage warning is truncated to the first 20
lines — no emitted warning identifies exactly the uncovered lines, refuting
the claim's second disjunct while the first (full coverage) also fails. -/
theorem validate_segmentation_coverage_truncated :
    coveredBy (validateSegmentation
        [{ start_line := 1, end_line := 2, section_type := "header" },
         { start_line := 30, end_line := 31, section_type := "other" },
         { start_line := 60, end_line := 80, section_type := "terms_and_conditions" }] 80).1 3 =
      false ∧
    missingLines (validateSegmentation
        [{ start_line := 1, end_line := 2, section_type := "header" },
         { start_line := 30, end_line := 31, section_type := "other" },
         { start_line := 60, end_line := 80, section_type := "terms_and_conditions" }] 80).1 80 ≠
      [] ∧
    ∀ w ∈ (validateSegmentation
        [{ start_line := 1, end_line := 2, section_type := "header" },
         { start_line := 30, end_line := 31, section_type := "other" },
         { start_line := 60, end_line := 80, section_type := "terms_and_conditions" }] 80).2,
      warningIdentifiesExactly w
        (missingLines (validateSegmentation
          [{ start_line := 1, end_line := 2, section_type := "header" },
           { start_line := 30, end_line := 31, section_type := "other" },
           { start_line := 60, end_line := 80, section_type := "terms_and_conditions" }] 80).1 80) =
        false := by
  refine ⟨by decide, by decide, by decide⟩

/-- C4 (amended): for every input list and `total_lines`, the repaired ranges
are pairwise non-overlapping; and either their union covers `[1, total_lines]`
or a warning is emitted — in particular (for non-empty input) a coverage
warning listing the first 20 uncovered lines in ascending order, with a
truncation marker exactly when more than 20 lines are uncovered. (The
original claim's "identifies exactly the uncovered lines" fails only through
that 20-line truncation.) -/
theorem validate_segmentation_partition (sections : List SectionReference) (total : Int) :
    ((validateSegmentation sections total).1).Pairwise
      (fun a b => ∀ l : Int,
        ¬(a.start_line ≤ l ∧ l ≤ a.end_line ∧ b.start_line ≤ l ∧ l ≤ b.end_line)) ∧
    (missingLines (validateSegmentation sections total).1 total = [] →
      ∀ l : Int, 1 ≤ l → l ≤ total →
        coveredBy (validateSegmentation sections total).1 l = true) ∧
    (missingLines (validateSegmentation sections total).1 total ≠ [] →
      (validateSegmentation sections total).2 ≠ []) ∧
    (sections ≠ [] → missingLines (validateSegmentation sections total).1 total ≠ [] →
      SegWarning.uncovered
          ((missingLines (validateSegmentation sections total).1 total).take 20)
          (decide (20 < (missingLines (validateSegmentation sections total).1 total).length)) ∈
        (validateSegmentation sections total).2) := by
  refine ⟨?_, ?_, ?_, ?_⟩
  · -- pairwise disjointness of the output ranges
    by_cases hne : sections = []
    · subst hne
      rw [validateSegmentation]
      simp
    · rw [validateSegmentation, if_neg hne]
      dsimp only
      rw [List.pairwise_iff_getElem]
      intro i j hi hj hij l hl
      obtain ⟨hl1, hl2, hl3, hl4⟩ := hl
      have hlen3 : (lastFix total (fixAdjacent (firstFix (sortSections sections)).1).1).1.length =
          (firstFix (sortSections sections)).1.length := by
        rw [lastFix_length, fixAdjacent_length]
      have hi1 : i + 1 < (firstFix (sortSections sections)).1.length := by omega
      have hj1 : j < (firstFix (sortSections sections)).1.length := by omega
      have hi2 : i + 1 < (fixAdjacent (firstFix (sortSections sections)).1).1.length := by
        rw [fixAdjacent_length]; exact hi1
      -- the i-th output end is bounded by the (i+1)-st start of the firstFix stage
      have houti : (lastFix total (fixAdjacent (firstFix (sortSections sections)).1).1).1[i]? =
          some (pairFix ((firstFix (sortSections sections)).1[i])
            ((firstFix (sortSections sections)).1[i + 1])).1 := by
        rw [lastFix_getElem_lt _ _ _ hi2]
        exact fixAdjacent_getElem _ i _ _ (List.getElem?_eq_getElem (by omega))
          (List.getElem?_eq_getElem hi1)
      have houti' := List.getElem?_eq_getElem hi
      rw [houti'] at houti
      have hendi := pairFix_end_le ((firstFix (sortSections sections)).1[i])
        ((firstFix (sortSections sections)).1[i + 1])
      rw [← Option.some.inj houti] at hendi
      -- the j-th output start equals the j-th start of the firstFix stage
      have hstartj : ((lastFix total (fixAdjacent (firstFix (sortSections sections)).1).1).1[j]?).map
            SectionReference.start_line =
          (((firstFix (sortSections sections)).1)[j]?).map SectionReference.start_line := by
        rw [lastFix_start, fixAdjacent_start]
      rw [List.getElem?_eq_getElem hj, List.getElem?_eq_getElem hj1] at hstartj
      have hstartj' := Option.some.inj hstartj
      -- starts from index 1 onwards are the sorted starts
      have hs1s0 : ∀ k : Nat, ((firstFix (sortSections sections)).1)[k + 1]? =
          (sortSections sections)[k + 1]? := fun k => firstFix_succ _ k
      have hlen0 : (firstFix (sortSections sections)).1.length =
          (sortSections sections).length := firstFix_length _
      have hmono : ((firstFix (sortSections sections)).1[i + 1]).start_line ≤
          ((firstFix (sortSections sections)).1[j]).start_line := by
        rcases Nat.lt_or_ge (i + 1) j with hlt | hge
        · obtain ⟨jj, rfl⟩ : ∃ jj, j = jj + 1 := ⟨j - 1, by omega⟩
          have ha := hs1s0 i
          have hb := hs1s0 jj
          rw [List.getElem?_eq_getElem hi1, List.getElem?_eq_getElem (by omega)] at ha
          rw [List.getElem?_eq_getElem hj1, List.getElem?_eq_getElem (by omega)] at hb
          rw [Option.some.inj ha, Option.some.inj hb]
          have hsorted := sortSections_sorted sections
          rw [List.Sorted, List.pairwise_iff_getElem] at hsorted
          exact hsorted (i + 1) (jj + 1) (by omega) (by omega) hlt
        · have : i + 1 = j := by omega
          subst this
          rfl
      omega
  · -- full coverage whenever no missing-line warning data exists
    intro hmiss l h1 h2
    by_contra hcov
    have hl : l ∈ (List.range total.toNat).map (fun k : Nat => (k : Int) + 1) := by
      have h3 : (l - 1).toNat < total.toNat := by omega
      have h4 : (((l - 1).toNat : Nat) : Int) + 1 = l := by omega
      exact List.mem_map.mpr ⟨(l - 1).toNat, List.mem_range.mpr h3, h4⟩
    have : l ∈ missingLines (validateSegmentation sections total).1 total := by
      rw [missingLines]
      refine List.mem_filter.mpr ⟨hl, ?_⟩
      simp only [Bool.not_eq_true] at hcov
      simp [hcov]
    rw [hmiss] at this
    exact absurd this (List.not_mem_nil l)
  · -- some warning is always emitted when coverage is incomplete
    intro hmiss
    by_cases hne : sections = []
    · subst hne
      rw [validateSegmentation]
      simp
    · rw [validateSegmentation, if_neg hne] at hmiss ⊢
      dsimp only at hmiss ⊢
      intro hcon
      rw [List.append_eq_nil] at hcon
      have := hcon.2
      rw [coverageWarn, if_neg hmiss] at this
      exact List.cons_ne_nil _ _ this
  · -- the coverage warning carries the first 20 missing lines and a marker
    intro hne hmiss
    rw [validateSegmentation, if_neg hne] at hmiss ⊢
    dsimp only at hmiss ⊢
    simp only [List.mem_append]
    refine Or.inr ?_
    rw [coverageWarn, if_neg hmiss]
    simp

/-- Witness for `validate_segmentation_partition` on the two-gap input: the
truncated coverage warning is emitted. -/
theorem validate_segmentation_partition_witness :
    SegWarning.uncovered
        ((missingLines (validateSegmentation
          [{ start_line := 1, end_line := 2, section_type := "header" },
           { start_line := 30, end_line := 31, section_type := "other" },
           { start_line := 60, end_line := 80, section_type := "terms_and_conditions" }] 80).1
          80).take 20)
        (decide (20 < (missingLines (validateSegmentation
          [{ start_line := 1, end_line := 2, section_type := "header" },
           { start_line := 30, end_line := 31, section_type := "other" },
           { start_line := 60, end_line := 80, section_type := "terms_and_conditions" }] 80).1
          80).length)) ∈
      (validateSegmentation
        [{ start_line := 1, end_line := 2, section_type := "header" },
         { start_line := 30, end_line := 31, section_type := "other" },
         { start_line := 60, end_line := 80, section_type := "terms_and_conditions" }] 80).2 :=
  (validate_segmentation_partition
    [{ start_line := 1, end_line := 2, section_type := "header" },
     { start_line := 30, end_line := 31, section_type := "other" },
     { start_line := 60, end_line := 80, section_type := "terms_and_conditions" }] 80).2.2.2
    (by decide) (by decide)

/-- C8 counterexample: the citation-detection call site converts a null parsed
oracle response into an EMPTY SUCCESS (`if not parsed: return []`) instead of
raising, so null-parsed handling is not uniform across the three call kinds. -/
theorem detect_null_parsed_soft :
    detectHandleParsed none = Except.ok [] ∧
    ∀ msg, detectHandleParsed none ≠ Except.error msg := by
  exact ⟨rfl, fun msg h => Except.noConfusion h⟩

/-- C8 (amended): a null parsed result is a hard failure (a raise) for the
segmentation and clause-extraction oracle calls, but citation detection
converts it into an empty success — the uniformity claimed for all three
call kinds does not hold. -/
theorem null_parsed_handling :
    (∃ msg, segHandleParsed none = Except.error msg) ∧
    (∀ off : Int, ∃ msg, extractChunkHandleParsed off none = Except.error msg) ∧
    detectHandleParsed none = Except.ok [] :=
  ⟨⟨_, rfl⟩, fun _ => ⟨_, rfl⟩, rfl⟩

lemma decide_append_ne (acc kept : List ClauseReference) :
    decide ((acc ++ kept) ≠ []) = (decide (acc ≠ []) || decide (kept ≠ [])) := by
  by_cases h1 : acc = [] <;> by_cases h2 : kept = [] <;> simp [h1, h2]

lemma kept_guard_eq (acc : List ClauseReference) (cs : Int) (raw : List ClauseReference) :
    (if acc ≠ [] ∧ 0 < cs then raw.filter (chunkKeep cs) else raw) =
      (if (decide (acc ≠ []) : Bool) ∧ 0 < cs then raw.filter (chunkKeep cs) else raw) := by
  by_cases h1 : acc = [] <;> by_cases h2 : 0 < cs <;> simp [h1, h2]

/-- The chunk loop equals the claim-side decomposition: visit the windows,
filter each window's result under the retained-anything guard, concatenate. -/
lemma chunkLoopGo_stitch (oracle : Int → Int → List ClauseReference) (total : Int) :
    ∀ (fuel : Nat) (cs : Int) (acc : List ClauseReference),
      chunkLoopGo oracle total fuel cs acc =
        acc ++ (stitchKept oracle (windowsGo total fuel cs) (decide (acc ≠ []))).flatten := by
  intro fuel
  induction fuel with
  | zero => intro cs acc; simp [chunkLoopGo, windowsGo, stitchKept]
  | succ fuel ih =>
      intro cs acc
      by_cases h1 : cs < total
      · simp only [chunkLoopGo, windowsGo, if_pos h1]
        by_cases h2 : total - chunkOverlap ≤ min (cs + MAX_LINES_PER_CHUNK) total - chunkOverlap
        · rw [if_pos h2, if_pos h2]
          simp only [stitchKept, List.flatten_cons, List.flatten_nil, List.append_nil]
          rw [kept_guard_eq]
        · rw [if_neg h2, if_neg h2, ih]
          simp only [stitchKept, List.flatten_cons]
          rw [kept_guard_eq, decide_append_ne, List.append_assoc]
      · simp [chunkLoopGo, windowsGo, if_neg h1, stitchKept]

/-- C5 (amended): for every oversized document, the chunked extraction equals:
visit the loop's windows in order; for each window after the first, IF some
earlier window already retained a boundary, drop exactly the boundaries
satisfying `start_line < previous_window_end ∧ end_line >
previous_window_end - chunk_overlap` (where `previous_window_end =
chunk_start + chunk_overlap`) — when every earlier window came back empty the
window is NOT filtered (the source's `if all_clauses` guard); concatenate all
retained boundaries and sort by start line, with no separate dedup pass. -/
theorem chunked_stitch_rule (oracle : Int → Int → List ClauseReference) (total : Int)
    (h : MAX_LINES_PER_CHUNK < total) :
    extractClausesFromDocument oracle total =
      sortClauses
        (List.flatten (stitchKept oracle (windowsGo total (total.toNat + 1) 0) false)) ∧
    (∀ (s : Int) (c : ClauseReference),
      chunkKeep s c = false ↔
        c.start_line < s + chunkOverlap ∧ (s + chunkOverlap) - chunkOverlap < c.end_line) := by
  constructor
  · rw [extractClausesFromDocument, if_neg (by omega)]
    rw [chunkLoopGo_stitch]
    simp
  · intro s c
    simp only [chunkKeep, Bool.or_eq_false_iff, decide_eq_false_iff_not]
    omega

/-- Witness for `chunked_stitch_rule` at a concrete oversized document. -/
theorem chunked_stitch_rule_witness :
    extractClausesFromDocument c5CounterOracle 6700 =
      sortClauses
        (List.flatten (stitchKept c5CounterOracle
          (windowsGo 6700 ((6700 : Int).toNat + 1) 0) false)) :=
  (chunked_stitch_rule c5CounterOracle 6700 (by decide)).1

/-- C5 counterexample: on a 6700-line document whose first window yields no
boundaries, the second window's boundary starting at line 6621 — inside the
previous window's overlap region (6617..6666), and satisfying the claim's
drop formula, as the `chunkKeep` conjunct shows — is RETAINED, because the
`if all_clauses` guard skips filtering when all earlier windows were empty.
The claim's "dropped exactly when ..." is therefore false as stated. -/
theorem chunked_stitch_guard_counterexample :
    extractClausesFromDocument c5CounterOracle 6700 =
      [{ start_line := 6621, end_line := 6626, chunk_type := .clause }] ∧
    chunkKeep 6616 { start_line := 6621, end_line := 6626, chunk_type := .clause } = false ∧
    windowsGo 6700 6701 0 = [(0, 6666), (6616, 6700)] := by
  refine ⟨by decide, by decide, by decide⟩

lemma overlapWarnings_mem (l : List ClauseReference) (i : Nat) (a b : ClauseReference)
    (ha : l[i]? = some a) (hb : l[i + 1]? = some b) (hcond : a.end_line ≥ b.start_line) :
    CWarning.overlapRef a.clause_number a.start_line a.end_line
      b.clause_number b.start_line b.end_line ∈ overlapWarnings l := by
  induction l generalizing i with
  | nil => simp at ha
  | cons x rest ih =>
      cases rest with
      | nil => cases i <;> simp_all
      | cons y rest' =>
          cases i with
          | zero =>
              simp only [List.getElem?_cons_zero] at ha
              simp only [List.getElem?_cons_succ, List.getElem?_cons_zero] at hb
              obtain rfl := Option.some.inj ha
              obtain rfl := Option.some.inj hb
              simp only [overlapWarnings, if_pos hcond, List.mem_append]
              exact Or.inl (by simp)
          | succ i' =>
              rw [List.getElem?_cons_succ] at ha hb
              simp only [overlapWarnings, List.mem_append]
              exact Or.inr (ih i' ha hb)

lemma gapWarnings_mem (l : List ClauseReference) (i : Nat) (a b : ClauseReference)
    (ha : l[i]? = some a) (hb : l[i + 1]? = some b) (hcond : b.start_line - a.end_line > 10) :
    CWarning.gapRef (b.start_line - a.end_line) a.clause_number a.end_line
      b.clause_number b.start_line ∈ gapWarnings l := by
  induction l generalizing i with
  | nil => simp at ha
  | cons x rest ih =>
      cases rest with
      | nil => cases i <;> simp_all
      | cons y rest' =>
          cases i with
          | zero =>
              simp only [List.getElem?_cons_zero] at ha
              simp only [List.getElem?_cons_succ, List.getElem?_cons_zero] at hb
              obtain rfl := Option.some.inj ha
              obtain rfl := Option.some.inj hb
              simp only [gapWarnings, if_pos hcond, List.mem_append]
              exact Or.inl (by simp)
          | succ i' =>
              rw [List.getElem?_cons_succ] at ha hb
              simp only [gapWarnings, List.mem_append]
              exact Or.inr (ih i' ha hb)

/-- C7: `validate_references` returns as its valid list exactly the input
boundaries with `1 ≤ start_line`, `end_line ≤ total_lines` and
`start_line ≤ end_line`, in input order and unmodified (rejected boundaries
are dropped with a warning, never repaired); among the retained boundaries
sorted by start line, an adjacent overlap (`current.end ≥ next.start`) or a
gap exceeding 10 lines (`next.start - current.end > 10`, the source's gap
measure) is reported as a warning without altering any boundary; and the
concrete boundary `(5,3)` (start > end) is dropped with a warning and absent
from the valid output. -/
theorem validate_references_rule (refs : List ClauseReference) (total : Int) :
    ((validateReferences refs total).1 =
      refs.filter (fun r => decide (1 ≤ r.start_line) && decide (r.end_line ≤ total) &&
        decide (r.start_line ≤ r.end_line)) ∧
    (∀ r ∈ refs, (r.start_line < 1 ∨ r.end_line > total ∨ r.start_line > r.end_line) →
      CWarning.invalidRef r.clause_number r.start_line r.end_line
        (decide (r.start_line < 1)) (decide (r.end_line > total))
        (decide (r.start_line > r.end_line)) ∈ (validateReferences refs total).2) ∧
    (∀ (i : Nat) (a b : ClauseReference),
      (sortClauses (validateReferences refs total).1)[i]? = some a →
      (sortClauses (validateReferences refs total).1)[i + 1]? = some b →
      (a.end_line ≥ b.start_line →
        CWarning.overlapRef a.clause_number a.start_line a.end_line
          b.clause_number b.start_line b.end_line ∈ (validateReferences refs total).2) ∧
      (b.start_line - a.end_line > 10 →
        CWarning.gapRef (b.start_line - a.end_line) a.clause_number a.end_line
          b.clause_number b.start_line ∈ (validateReferences refs total).2))) ∧
    validateReferences [{ start_line := 5, end_line := 3, chunk_type := .clause }] 10 =
      ([], [.invalidRef none 5 3 false false true]) := by
  refine ⟨⟨?_, ?_, ?_⟩, by decide⟩
  · rw [validateReferences]
    dsimp only
    apply List.filter_congr
    intro r _
    by_cases h1 : 1 ≤ r.start_line <;> by_cases h2 : r.end_line ≤ total <;>
      by_cases h3 : r.start_line ≤ r.end_line <;>
      simp [h1, h2, h3]
  · intro r hr hcond
    rw [validateReferences]
    dsimp only
    simp only [List.mem_append]
    refine Or.inl (Or.inl ?_)
    rw [invalidWarnings]
    refine List.mem_filterMap.mpr ⟨r, hr, ?_⟩
    rw [if_pos hcond]
  · intro i a b ha hb
    constructor
    · intro hcond
      conv_lhs at ha => rw [validateReferences]
      conv_lhs at hb => rw [validateReferences]
      rw [validateReferences]
      dsimp only at ha hb ⊢
      simp only [List.mem_append]
      exact Or.inl (Or.inr (overlapWarnings_mem _ i a b ha hb hcond))
    · intro hcond
      conv_lhs at ha => rw [validateReferences]
      conv_lhs at hb => rw [validateReferences]
      rw [validateReferences]
      dsimp only at ha hb ⊢
      simp only [List.mem_append]
      exact Or.inr (gapWarnings_mem _ i a b ha hb hcond)

/-- Witness for `validate_references_rule`: the `(5,3)` boundary produces its
invalid-reference warning. -/
theorem validate_references_rule_witness :
    CWarning.invalidRef none 5 3 (decide ((5 : Int) < 1)) (decide ((3 : Int) > 10))
        (decide ((5 : Int) > 3)) ∈
      (validateReferences [{ start_line := 5, end_line := 3, chunk_type := .clause }] 10).2 :=
  (validate_references_rule [{ start_line := 5, end_line := 3, chunk_type := .clause }] 10).1.2.1
    { start_line := 5, end_line := 3, chunk_type := .clause } (by decide) (by decide)

lemma isEmpty_false_of_ne {s : String} (h : s ≠ "") : s.isEmpty = false := by
  rw [Bool.eq_false_iff]
  intro hc
  exact h ((String.isEmpty_iff s).mp hc)

lemma refDocsSharing_eq_filter (docs : List RefDoc) (cid : String)
    (hid : ∀ rd ∈ docs, rd.doc_identifier ≠ some "") :
    refDocsSharing docs (normalizeIdentifier cid) = docs.filter (sharesIdentifier cid) := by
  rw [refDocsSharing]
  apply List.filter_congr
  intro rd hrd
  cases h : rd.doc_identifier with
  | none => simp [optTruthy, sharesIdentifier, h]
  | some s =>
      have hs : s ≠ "" := by
        intro hc
        exact hid rd hrd (by rw [h, hc])
      simp [optTruthy, sharesIdentifier, h, isEmpty_false_of_ne hs]

lemma scanVersions_noVersion (rd : RefDoc) (rest : List RefDoc) (pm : Option RefDoc) :
    scanVersions none (rd :: rest) pm = (some rd, pm) := by
  simp [scanVersions, optTruthy]

lemma scanVersions_exact (v : String) (hv : v ≠ "") (docs : List RefDoc)
    (hver : ∀ rd ∈ docs, rd.version ≠ some "") (pm : Option RefDoc) :
    (scanVersions (some v) docs pm).1 = docs.find? (versionMatches v) := by
  induction docs generalizing pm with
  | nil => simp [scanVersions]
  | cons rd rest ih =>
      have hve : v.isEmpty = false := isEmpty_false_of_ne hv
      cases hrv : rd.version with
      | none =>
          rw [List.find?_cons]
          have hpred : versionMatches v rd = false := by simp [versionMatches, hrv]
          simp only [hpred]
          rw [show (scanVersions (some v) (rd :: rest) pm).1 =
              (scanVersions (some v) rest (some rd)).1 from by
            simp [scanVersions, hrv, optTruthy, hve]]
          exact ih (fun x hx => hver x (List.mem_cons_of_mem rd hx)) (some rd)
      | some w =>
          have hw : w ≠ "" := by
            intro hc
            exact hver rd (by simp) (by rw [hrv, hc])
          have hwe : w.isEmpty = false := isEmpty_false_of_ne hw
          rw [List.find?_cons]
          by_cases heq : normalizeVersion w = normalizeVersion v
          · have hpred : versionMatches v rd = true := by simp [versionMatches, hrv, heq]
            simp only [hpred]
            simp [scanVersions, hrv, optTruthy, hve, hwe, heq]
          · have hpred : versionMatches v rd = false := by simp [versionMatches, hrv, heq]
            simp only [hpred]
            rw [show (scanVersions (some v) (rd :: rest) pm).1 =
                (scanVersions (some v) rest (some rd)).1 from by
              simp [scanVersions, hrv, optTruthy, hve, hwe, heq]]
            exact ih (fun x hx => hver x (List.mem_cons_of_mem rd hx)) (some rd)

lemma scanVersions_no_exact (v : String) (hv : v ≠ "") (docs : List RefDoc)
    (hver : ∀ rd ∈ docs, rd.version ≠ some "")
    (hfind : docs.find? (versionMatches v) = none) (hne : docs ≠ []) (pm : Option RefDoc) :
    (scanVersions (some v) docs pm).2 = docs.getLast? := by
  induction docs generalizing pm with
  | nil => exact absurd rfl hne
  | cons rd rest ih =>
      have hve : v.isEmpty = false := isEmpty_false_of_ne hv
      rw [List.find?_cons] at hfind
      have hpred : versionMatches v rd = false := by
        by_contra hc
        rw [Bool.not_eq_false] at hc
        rw [hc] at hfind
        exact Option.noConfusion hfind
      rw [hpred] at hfind
      have hstep : scanVersions (some v) (rd :: rest) pm =
          scanVersions (some v) rest (some rd) := by
        cases hrv : rd.version with
        | none => simp [scanVersions, hrv, optTruthy, hve]
        | some w =>
            have hw : w ≠ "" := by
              intro hc
              exact hver rd (by simp) (by rw [hrv, hc])
            have heq : ¬ normalizeVersion w = normalizeVersion v := by
              intro hc
              have : versionMatches v rd = true := by simp [versionMatches, hrv, hc]
              rw [this] at hpred
              exact Bool.noConfusion hpred
            simp [scanVersions, hrv, optTruthy, hve, isEmpty_false_of_ne hw, heq]
      rw [hstep]
      cases rest with
      | nil => simp [scanVersions]
      | cons r2 rest' =>
          rw [List.getLast?_cons_cons]
          exact ih (fun x hx => hver x (List.mem_cons_of_mem rd hx)) hfind (by simp) (some rd)

/-- C2: the three-tier reconciliation outcome, for libraries whose entries
have non-empty identifiers and versions (Python truthiness makes the source
treat an empty-string identifier or version as absent). With
`sharing = docs.filter (sharesIdentifier citation.identifier)`: no sharing
entry → unresolved; sharing entry and (citation has no version → bound to the
first sharing entry; citation has version v and some sharing entry matches on
normalized version → bound to the first such entry) → matched; sharing
entries but none matching on version (citation carrying one) → partial,
bound to a sharing entry (the source binds the last). The final conjunct is
the spec's reconciliation scenario with library entry
`{SDC-Q-100, Rev C}`. -/
theorem match_references_tiering :
    (∀ (det : DetectedReference) (clauses : List ClauseRec) (docs : List RefDoc)
        (c : ClauseRec),
      lookupClause clauses det.clause_start_line det.clause_end_line = some c →
      (∀ rd ∈ docs, rd.doc_identifier ≠ some "") →
      (∀ rd ∈ docs, rd.version ≠ some "") →
      (docs.filter (sharesIdentifier det.spec_identifier) = [] →
        matchDetected clauses docs det = some
          { clause_id := c.id, detected_spec_identifier := det.spec_identifier,
            detected_version := det.version, match_status := .unresolved }) ∧
      (∀ (rd : RefDoc) (rest : List RefDoc), det.version = none →
        docs.filter (sharesIdentifier det.spec_identifier) = rd :: rest →
        matchDetected clauses docs det = some
          { clause_id := c.id, reference_document_id := some rd.id,
            detected_spec_identifier := det.spec_identifier,
            detected_version := det.version, match_status := .matched }) ∧
      (∀ (v : String) (rd : RefDoc), det.version = some v → v ≠ "" →
        (docs.filter (sharesIdentifier det.spec_identifier)).find? (versionMatches v) =
          some rd →
        matchDetected clauses docs det = some
          { clause_id := c.id, reference_document_id := some rd.id,
            detected_spec_identifier := det.spec_identifier,
            detected_version := det.version, match_status := .matched }) ∧
      (∀ v : String, det.version = some v → v ≠ "" →
        docs.filter (sharesIdentifier det.spec_identifier) ≠ [] →
        (docs.filter (sharesIdentifier det.spec_identifier)).find? (versionMatches v) =
          none →
        ∃ rd ∈ docs.filter (sharesIdentifier det.spec_identifier),
          matchDetected clauses docs det = some
            { clause_id := c.id, reference_document_id := some rd.id,
              detected_spec_identifier := det.spec_identifier,
              detected_version := det.version, match_status := .partialMatch })) ∧
    matchReferencesToLibrary
        [{ clause_start_line := 3, clause_end_line := 5, spec_identifier := "SDC-Q-100",
           version := some "Rev C" },
         { clause_start_line := 3, clause_end_line := 5, spec_identifier := "SDC-Q-100",
           version := some "Rev D" },
         { clause_start_line := 3, clause_end_line := 5, spec_identifier := "SDC-Q-999" }]
        [{ id := 42, start_line := 3, end_line := 5 }]
        [{ id := 1, customer_id := 7, doc_identifier := some "SDC-Q-100",
           version := some "Rev C" }] =
      [{ clause_id := 42, reference_document_id := some 1,
         detected_spec_identifier := "SDC-Q-100", detected_version := some "Rev C",
         match_status := .matched },
       { clause_id := 42, reference_document_id := some 1,
         detected_spec_identifier := "SDC-Q-100", detected_version := some "Rev D",
         match_status := .partialMatch },
       { clause_id := 42, reference_document_id := none,
         detected_spec_identifier := "SDC-Q-999", detected_version := none,
         match_status := .unresolved }] := by
  constructor
  · intro det clauses docs c hc hid hver
    have hshare := refDocsSharing_eq_filter docs det.spec_identifier hid
    have hverM : ∀ rd ∈ docs.filter (sharesIdentifier det.spec_identifier),
        rd.version ≠ some "" := fun rd hrd => hver rd (List.mem_of_mem_filter hrd)
    refine ⟨?_, ?_, ?_, ?_⟩
    · intro hnil
      unfold matchDetected
      rw [hc, hshare]
      dsimp only
      rw [if_pos hnil]
    · intro rd rest hdv hcons
      unfold matchDetected
      rw [hc, hshare, hcons, hdv]
      dsimp only
      rw [if_neg (List.cons_ne_nil rd rest), scanVersions_noVersion]
    · intro v rd hdv hv hfind
      unfold matchDetected
      rw [hc, hshare, hdv]
      dsimp only
      have hmem := List.mem_of_find?_eq_some hfind
      have hne : docs.filter (sharesIdentifier det.spec_identifier) ≠ [] := by
        intro hcon
        rw [hcon] at hmem
        exact absurd hmem (List.not_mem_nil rd)
      rw [if_neg hne]
      have hex := scanVersions_exact v hv _ hverM none
      rw [hfind] at hex
      rcases hsv : scanVersions (some v) (docs.filter (sharesIdentifier det.spec_identifier))
          none with ⟨ex, pm⟩
      rw [hsv] at hex
      dsimp only at hex
      subst hex
      rfl
    · intro v hdv hv hne hfind
      have hex := scanVersions_exact v hv _ hverM none
      rw [hfind] at hex
      have hpm := scanVersions_no_exact v hv _ hverM hfind hne none
      obtain ⟨last, hlast⟩ : ∃ last,
          (docs.filter (sharesIdentifier det.spec_identifier)).getLast? = some last := by
        rcases hgl : (docs.filter (sharesIdentifier det.spec_identifier)).getLast? with _ | ⟨last⟩
        · rw [List.getLast?_eq_none_iff] at hgl
          exact absurd hgl hne
        · exact ⟨last, rfl⟩
      have hlastmem : last ∈ docs.filter (sharesIdentifier det.spec_identifier) := by
        rw [List.getLast?_eq_getLast_of_ne_nil hne] at hlast
        obtain rfl := Option.some.inj hlast
        exact List.getLast_mem hne
      refine ⟨last, hlastmem, ?_⟩
      unfold matchDetected
      rw [hc, hshare, hdv]
      dsimp only
      rw [if_neg hne]
      rw [hlast] at hpm
      rcases hsv : scanVersions (some v) (docs.filter (sharesIdentifier det.spec_identifier))
          none with ⟨ex, pm⟩
      rw [hsv] at hex hpm
      dsimp only at hex hpm
      subst hex
      subst hpm
      rfl
  · decide

/-- Witness for `match_references_tiering` at the spec's scenario: the
version-matching citation binds `matched` to the single library entry. -/
theorem match_references_tiering_witness :
    matchDetected [{ id := 42, start_line := 3, end_line := 5 }]
        [{ id := 1, customer_id := 7, doc_identifier := some "SDC-Q-100",
           version := some "Rev C" }]
        { clause_start_line := 3, clause_end_line := 5, spec_identifier := "SDC-Q-100",
          version := some "Rev C" } = some
      { clause_id := 42, reference_document_id := some 1,
        detected_spec_identifier := "SDC-Q-100", detected_version := some "Rev C",
        match_status := .matched } :=
  (match_references_tiering.1
    { clause_start_line := 3, clause_end_line := 5, spec_identifier := "SDC-Q-100",
      version := some "Rev C" }
    [{ id := 42, start_line := 3, end_line := 5 }]
    [{ id := 1, customer_id := 7, doc_identifier := some "SDC-Q-100",
       version := some "Rev C" }]
    { id := 42, start_line := 3, end_line := 5 }
    (by decide) (by decide) (by decide)).2.2.1 "Rev C"
    { id := 1, customer_id := 7, doc_identifier := some "SDC-Q-100",
      version := some "Rev C" }
    (by decide) (by decide) (by decide)

end ClauseFlow
